import Mathlib

/-! Verification of the timeghost event-triple selection core (`app.py`).

The embedding models:
* `datetime` values as `Int` timestamps counted in microseconds (datetime
  arithmetic is exact at microsecond resolution);
* `timedelta` values as `Int` microsecond counts;
* the global `random` source as an explicit stream of draws (`List Nat`);
  `random.choice` consumes one draw and indexes with it modulo the length;
* Python exceptions as `Except PyError`;
* `Event.now()` as a function of an explicitly supplied current instant.
-/

set_option maxHeartbeats 1000000

def SECONDS_PER_YEAR : Nat := 31536000

def NUM_TRIES : Nat := 100

def NOW_MARKER : String := "now"

/-- Membership in `ALLOWED = set(ascii_letters + digits + "-")`. -/
def isAllowedChar (c : Char) : Bool :=
  c.isAlpha || c.isDigit || c = '-'

/-- One character of `.replace(" ", "-")`. -/
def replChar (c : Char) : Char :=
  if c = ' ' then '-' else c

/-- Embedding of `Event._make_url` on the character list of the description:
lowercase, spaces to hyphens, keep only `ALLOWED` characters, first 40. -/
def urlChars (l : List Char) : List Char :=
  (((l.map Char.toLower).map replChar).filter isAllowedChar).take 40

/-- Embedding of `Event._make_url`. -/
def make_url (desc : String) : String :=
  String.mk (urlChars desc.data)

structure Event where
  description : String
  date : Int
deriving DecidableEq

/-- The `url` attribute computed at construction: a pure function of the description. -/
def Event.url (e : Event) : String :=
  make_url e.description

/-- Embedding of `Event.now()`, with the current instant supplied explicitly. -/
def Event.now (date : Int) : Event :=
  ⟨NOW_MARKER, date⟩

/-- Month names for `%B`. -/
def monthName (m : Nat) : String :=
  ["January", "February", "March", "April", "May", "June", "July",
   "August", "September", "October", "November", "December"].getD (m - 1) ""

/-- Proleptic Gregorian date from a day count (days since the Unix epoch). -/
def civilFromDays (z0 : Int) : Int × Nat × Nat :=
  let z := z0 + 719468
  let era := Int.fdiv z 146097
  let doe := (z - era * 146097).toNat
  let yoe := (doe - doe / 1460 + doe / 36524 - doe / 146096) / 365
  let y := (yoe : Int) + era * 400
  let doy := doe - (365 * yoe + yoe / 4 - yoe / 100)
  let mp := (5 * doy + 2) / 153
  let d := doy - (153 * mp + 2) / 5 + 1
  let m := if mp < 10 then mp + 3 else mp - 9
  (if m ≤ 2 then y + 1 else y, m, d)

/-- Embedding of `Event.datestr`: `strftime("%-d %B, %Y")`. -/
def Event.datestr (e : Event) : String :=
  let days := Int.fdiv e.date 86400000000
  let c := civilFromDays days
  toString c.2.2 ++ " " ++ monthName c.2.1 ++ ", " ++ toString c.1

/-- The exceptions the modelled code can raise. -/
inductive PyError where
  | validation
  | creation
  | indexError
  | unboundLocal
deriving DecidableEq

structure Timeghost where
  first : Event
  middle : Event
  last : Event
  tries : Nat
deriving DecidableEq

/-- Embedding of `Timeghost.first_gap`: `middle - first` (microseconds). -/
def Timeghost.first_gap (tg : Timeghost) : Int :=
  tg.middle.date - tg.first.date

/-- Embedding of `Timeghost.last_gap`: `last - middle` (microseconds). -/
def Timeghost.last_gap (tg : Timeghost) : Int :=
  tg.last.date - tg.middle.date

/-- Embedding of `Timeghost.first_gap_years`: `total_seconds() / SECONDS_PER_YEAR`,
in exact rational arithmetic. -/
def Timeghost.first_gap_years (tg : Timeghost) : ℚ :=
  ((tg.first_gap : ℚ) / 1000000) / (SECONDS_PER_YEAR : ℚ)

/-- Embedding of `Timeghost.last_gap_years` in exact rational arithmetic. -/
def Timeghost.last_gap_years (tg : Timeghost) : ℚ :=
  ((tg.last_gap : ℚ) / 1000000) / (SECONDS_PER_YEAR : ℚ)

/-- Embedding of `Timeghost.is_valid`: right order and right closeness. -/
def Timeghost.is_valid (tg : Timeghost) : Bool :=
  (decide (tg.first.date < tg.middle.date) && decide (tg.middle.date < tg.last.date))
    && decide (tg.first_gap < tg.last_gap)

/-- Embedding of `Timeghost.__init__`: store the three events, set `tries = 1`, and when
`check` is set raise `TimeghostValidationError` unless `is_valid()`. -/
def timeghostInit (first middle last : Event) (check : Bool) : Except PyError Timeghost :=
  let tg : Timeghost := ⟨first, middle, last, 1⟩
  if check && !tg.is_valid then .error .validation else .ok tg

/-- Embedding of `Timeghost.factoid`. -/
def Timeghost.factoid (tg : Timeghost) : String :=
  let last := if tg.last.description = NOW_MARKER then "today" else "the " ++ tg.last.description
  "The " ++ tg.middle.description ++ " is closer to the " ++ tg.first.description
    ++ " than " ++ last ++ "."

/-- Zero-pad a digit string on the left to width `n`. -/
def padZeros (s : String) (n : Nat) : String :=
  String.mk (List.replicate (n - s.length) '0') ++ s

/-- Fixed-point rendering of a rational, modelling the fixed-precision format of the source
(the source formats a float; the model rounds the exact rational). -/
def fmtFixed (q : ℚ) (prec : Nat) : String :=
  let scaled : Int := round (q * (10 : ℚ) ^ prec)
  let sign := if scaled < 0 then "-" else ""
  let a := scaled.natAbs
  let ip := a / 10 ^ prec
  let fp := a % 10 ^ prec
  if prec = 0 then sign ++ toString ip
  else sign ++ toString ip ++ "." ++ padZeros (toString fp) prec

/-- The `while`-loop of `verbose_factoid` that raises the precision until the
two year figures print differently.  The source loop is unbounded; the model
carries fuel (the loop body is otherwise identical). -/
def findPrecisionAux (a b : ℚ) : Nat → Nat → Nat
  | 0, p => p
  | fuel + 1, p => if fmtFixed a p = fmtFixed b p then findPrecisionAux a b fuel (p + 1) else p

/-- Embedding of `Timeghost.verbose_factoid`, with `datetime.now().strftime("%-d %B, %Y")`
supplied explicitly as `nowDateStr`. -/
def Timeghost.verbose_factoid (tg : Timeghost) (nowDateStr : String) : String :=
  let lastPair :=
    if tg.last.description = NOW_MARKER then ("today", nowDateStr)
    else ("the " ++ tg.last.description, tg.last.datestr)
  let precision := findPrecisionAux tg.first_gap_years tg.last_gap_years 50 0
  "The " ++ tg.middle.description ++ " (" ++ tg.middle.datestr ++ ") is closer ("
    ++ fmtFixed tg.first_gap_years precision ++ " years) to the "
    ++ tg.first.description ++ " (" ++ tg.first.datestr ++ ") ("
    ++ fmtFixed tg.last_gap_years precision ++ " years) than "
    ++ lastPair.1 ++ " (" ++ lastPair.2 ++ ") "

/-- Embedding of `random.choice`: `IndexError` on an empty sequence, otherwise one draw
from the stream picks the index. -/
def randomChoice (xs : List Event) (rng : List Nat) : Except PyError (Event × List Nat) :=
  match xs with
  | [] => .error .indexError
  | x :: rest => .ok ((x :: rest).getD (rng.headD 0 % (x :: rest).length) x, rng.tail)

/-- Embedding of `Timeghost._event_before`: a random event earlier than `middle`. -/
def event_before (middle : Event) (events : List Event) (rng : List Nat) :
    Except PyError (Event × List Nat) :=
  randomChoice (events.filter (fun e => decide (e.date < middle.date))) rng

/-- The scan loop of `Timeghost._make`: skip events failing
`invalid_event_check`, return the first whose construction validates,
raise `TimeghostCreationError` when the list is exhausted. -/
def tgScan (events : List Event) (invalidCheck : Event → Bool)
    (build : Event → Except PyError Timeghost) : Except PyError Timeghost :=
  match events with
  | [] => .error .creation
  | e :: rest =>
    if invalidCheck e then tgScan rest invalidCheck build
    else
      match build e with
      | .ok tg => .ok tg
      | .error _ => tgScan rest invalidCheck build

/-- Embedding of `Timeghost._make`. -/
def tgMake (events : List Event) (first middle last : Option Event) :
    Except PyError Timeghost :=
  match first, middle, last with
  | none, some m, some l =>
    tgScan events (fun f => decide (m.date < f.date)) (fun f => timeghostInit f m l true)
  | some f, some m, none =>
    tgScan events (fun l => decide (l.date < m.date)) (fun l => timeghostInit f m l true)
  | _, _, _ => .error .creation

/-- Remove and return the element at index `n`. -/
def pickAt : List Event → Nat → Option (Event × List Event)
  | [], _ => none
  | x :: xs, 0 => some (x, xs)
  | x :: xs, n + 1 =>
    match pickAt xs n with
    | some (y, ys) => some (y, x :: ys)
    | none => none

/-- Stream-driven permutation modelling `random.shuffle` (repeatedly extract
the element whose index is the next draw modulo the remaining length). -/
def shuffleFuel : Nat → List Event → List Nat → List Event × List Nat
  | 0, xs, rng => (xs, rng)
  | _ + 1, [], rng => ([], rng)
  | fuel + 1, x :: xs, rng =>
    match pickAt (x :: xs) (rng.headD 0 % (x :: xs).length) with
    | some (y, ys) =>
      let r := shuffleFuel fuel ys rng.tail
      (y :: r.1, r.2)
    | none => (x :: xs, rng)

/-- Embedding of `random.shuffle`. -/
def shuffle (xs : List Event) (rng : List Nat) : List Event × List Nat :=
  shuffleFuel xs.length xs rng

/-- Stable insertion of an event into a date-sorted list. -/
def ordered_insert (e : Event) : List Event → List Event
  | [] => [e]
  | x :: xs => if e.date ≤ x.date then e :: x :: xs else x :: ordered_insert e xs

/-- Embedding of `events.sort()`: a stable ascending sort by date (`list.sort` is stable
and compares with `__lt__`, which compares dates; any stable sort by the same
key computes the same list). -/
def sortEvents : List Event → List Event
  | [] => []
  | x :: xs => ordered_insert x (sortEvents xs)

/-- One-attempt-at-a-time loop of `Timeghost.make`.  `fuel` is the number of
remaining attempts, `i` the index of the current attempt.  Returns the result,
the final event list (the list is mutated in place by the source), and the
remaining draw stream.  When the fuel runs out the source executes
`return timeghost` with `timeghost` never assigned: `UnboundLocalError`. -/
def makeLoop : Nat → Nat → List Event → Option Event → Bool → Int → List Nat →
    Except PyError Timeghost × List Event × List Nat
  | 0, _, events, _, _, _, rng => (.error .unboundLocal, events, rng)
  | fuel + 1, i, events, middleOpt, isNow, nowDate, rng =>
    match (match middleOpt with
           | some m => Except.ok (m, rng)
           | none => randomChoice events rng) with
    | .error e => (.error e, events, rng)
    | .ok (middle, rng1) =>
      let events1 := if middle ∈ events then events.erase middle else events
      match (if isNow then
               Except.ok ((none : Option Event), (some (Event.now nowDate), rng1))
             else
               match event_before middle events1 rng1 with
               | .ok (f, rng2) => Except.ok (some f, ((none : Option Event), rng2))
               | .error e => .error e) with
      | .error e => (.error e, events1, rng1)
      | .ok (first, last, rng2) =>
        match tgMake events1 first (some middle) last with
        | .ok tg => (.ok { tg with tries := i + 1 }, events1, rng2)
        | .error e =>
          if e = .creation then makeLoop fuel (i + 1) events1 (some middle) isNow nowDate rng2
          else (.error e, events1, rng2)

/-- Embedding of `Timeghost.make`. -/
def make (events : List Event) (middle : Option Event) (isNow : Bool) (isRandom : Bool)
    (rng : List Nat) (nowDate : Int) : Except PyError Timeghost × List Event × List Nat :=
  let p := if isRandom then shuffle events rng else (sortEvents events, rng)
  makeLoop NUM_TRIES 0 p.1 middle isNow nowDate p.2

deriving instance DecidableEq for Except

/-- Example event dated at timestamp 0. -/
def evF : Event := ⟨"f", 0⟩

/-- Example event dated at timestamp 100. -/
def evM : Event := ⟨"m", 100⟩

/-- Example event dated at timestamp 1000. -/
def evL : Event := ⟨"l", 1000⟩

/-- Example event dated at timestamp 200, later than `evM`. -/
def evA : Event := ⟨"a", 200⟩

/-- Example event dated at timestamp 0, earlier than `evM`. -/
def evE1 : Event := ⟨"e1", 0⟩

/-- Example event dated at timestamp 50, earlier than `evM`. -/
def evE2 : Event := ⟨"e2", 50⟩

/-- Example event whose description is the now marker. -/
def evNow : Event := ⟨"now", 900⟩

/-! Helper lemmas shared by the claim theorems. -/

theorem char_toNat_ofNat (n : Nat) (h : n.isValidChar) : (Char.ofNat n).toNat = n := by
  rw [Char.ofNat, dif_pos h]
  rfl

theorem toLower_idem (c : Char) : (Char.toLower c).toLower = Char.toLower c := by
  unfold Char.toLower
  by_cases h : c.toNat ≥ 65 ∧ c.toNat ≤ 90
  · rw [if_pos h]
    have hv : (c.toNat + 32).isValidChar := Or.inl (by omega)
    have ht : (Char.ofNat (c.toNat + 32)).toNat = c.toNat + 32 := char_toNat_ofNat _ hv
    rw [if_neg]
    rw [ht]
    omega
  · rw [if_neg h, if_neg h]

theorem mem_urlChars {c : Char} {l : List Char} (hc : c ∈ urlChars l) :
    isAllowedChar c = true ∧ replChar c = c ∧ Char.toLower c = c := by
  unfold urlChars at hc
  have hfil := List.mem_of_mem_take hc
  have hallowed : isAllowedChar c = true := List.of_mem_filter hfil
  have hmap : c ∈ (l.map Char.toLower).map replChar := List.mem_of_mem_filter hfil
  obtain ⟨y, hy, hyc⟩ := List.mem_map.mp hmap
  obtain ⟨x, _, hxy⟩ := List.mem_map.mp hy
  have hne : c ≠ ' ' := by
    intro hsp
    rw [hsp] at hallowed
    simp [isAllowedChar, Char.isAlpha, Char.isUpper, Char.isLower, Char.isDigit] at hallowed
  refine ⟨hallowed, ?_, ?_⟩
  · simp [replChar, hne]
  · subst hxy
    by_cases hsp : Char.toLower x = ' '
    · rw [← hyc, replChar, if_pos hsp]
      decide
    · rw [← hyc, replChar, if_neg hsp]
      exact toLower_idem x

theorem urlChars_length_le (l : List Char) : (urlChars l).length ≤ 40 := by
  unfold urlChars
  rw [List.length_take]
  exact Nat.min_le_left _ _

theorem urlChars_idem (l : List Char) : urlChars (urlChars l) = urlChars l := by
  have h1 : (urlChars l).map Char.toLower = urlChars l := by
    rw [List.map_congr_left (g := id) (fun c hc => (mem_urlChars hc).2.2), List.map_id]
  have h2 : (urlChars l).map replChar = urlChars l := by
    rw [List.map_congr_left (g := id) (fun c hc => (mem_urlChars hc).2.1), List.map_id]
  have h3 : (urlChars l).filter isAllowedChar = urlChars l :=
    List.filter_eq_self.mpr (fun c hc => (mem_urlChars hc).1)
  have h4 : (urlChars l).take 40 = urlChars l :=
    List.take_of_length_le (urlChars_length_le l)
  show ((((urlChars l).map Char.toLower).map replChar).filter isAllowedChar).take 40 = urlChars l
  rw [h1, h2, h3, h4]

/-! Claim theorems. -/

/-- C1: constructing a Timeghost with `check = true` raises a validation error
exactly when the validity predicate fails; with `check = false` construction
never raises and accepts the triple as-is; and `is_valid` evaluates the
two-part predicate `first < middle < last` and `first_gap < last_gap`. -/
theorem C1_constructor_validation (f m l : Event) :
    timeghostInit f m l true
        = (if (⟨f, m, l, 1⟩ : Timeghost).is_valid then .ok ⟨f, m, l, 1⟩ else .error .validation)
    ∧ timeghostInit f m l false = .ok ⟨f, m, l, 1⟩
    ∧ ((⟨f, m, l, 1⟩ : Timeghost).is_valid = true ↔
        (f.date < m.date ∧ m.date < l.date) ∧ m.date - f.date < l.date - m.date) := by
  refine ⟨?_, rfl, ?_⟩
  · by_cases h : (⟨f, m, l, 1⟩ : Timeghost).is_valid
    · simp [timeghostInit, h]
    · simp [timeghostInit, h]
  · simp [Timeghost.is_valid, Timeghost.first_gap, Timeghost.last_gap, and_assoc]

/-- C8: slug derivation is deterministic (it is a function of the
description), yields a string of length at most 40 drawn from
`[a-zA-Z0-9-]`, and is idempotent: re-deriving from a slug returns the
slug unchanged. -/
theorem C8_slug_idempotent (d : String) :
    (make_url d).length ≤ 40
    ∧ (make_url d).data.all (fun c => c.isAlpha || c.isDigit || decide (c = '-')) = true
    ∧ make_url (make_url d) = make_url d := by
  refine ⟨?_, ?_, ?_⟩
  · show (urlChars d.data).length ≤ 40
    exact urlChars_length_le d.data
  · rw [List.all_eq_true]
    intro c hc
    exact (mem_urlChars hc).1
  · show String.mk (urlChars (urlChars d.data)) = String.mk (urlChars d.data)
    rw [urlChars_idem]

theorem timeghostInit_check (f m l : Event) :
    timeghostInit f m l true
      = if (⟨f, m, l, 1⟩ : Timeghost).is_valid then .ok ⟨f, m, l, 1⟩ else .error .validation := by
  by_cases h : (⟨f, m, l, 1⟩ : Timeghost).is_valid <;> simp [timeghostInit, h]

theorem tgScan_init_eq_find (events : List Event) (chk : Event → Bool) (tgOf : Event → Timeghost)
    (build : Event → Except PyError Timeghost)
    (hbuild : ∀ e, build e = if (tgOf e).is_valid then .ok (tgOf e) else .error .validation) :
    tgScan events chk build
      = match events.find? (fun e => !chk e && (tgOf e).is_valid) with
        | some e => .ok (tgOf e)
        | none => .error .creation := by
  induction events with
  | nil => rfl
  | cons e rest ih =>
    rw [tgScan]
    by_cases hc : chk e
    · rw [if_pos hc]
      have hp : (!chk e && (tgOf e).is_valid) = false := by simp [hc]
      rw [List.find?_cons, hp, ih]
    · rw [if_neg hc, hbuild e]
      by_cases hv : (tgOf e).is_valid
      · have hp : (!chk e && (tgOf e).is_valid) = true := by simp [hc, hv]
        rw [if_pos hv, List.find?_cons, hp]
      · have hp : (!chk e && (tgOf e).is_valid) = false := by simp [hv]
        rw [if_neg hv, List.find?_cons, hp, ih]

/-- C3: in `_make` with first and middle given, the event list is scanned in
positional order, candidates earlier than middle are rejected, and the first
candidate whose construction validates produces the result; symmetrically with
middle and last given, candidates later than middle are rejected and the first
validating candidate becomes the first event. -/
theorem C3_inner_scan_first_success (events : List Event) (f m l : Event) :
    (tgMake events (some f) (some m) none
        = match events.find? (fun e => !decide (e.date < m.date)
              && (⟨f, m, e, 1⟩ : Timeghost).is_valid) with
          | some e => .ok ⟨f, m, e, 1⟩
          | none => .error .creation)
    ∧ (tgMake events none (some m) (some l)
        = match events.find? (fun e => !decide (m.date < e.date)
              && (⟨e, m, l, 1⟩ : Timeghost).is_valid) with
          | some e => .ok ⟨e, m, l, 1⟩
          | none => .error .creation) := by
  constructor
  · exact tgScan_init_eq_find events _ (fun e => ⟨f, m, e, 1⟩) _
      (fun e => timeghostInit_check f m e)
  · exact tgScan_init_eq_find events _ (fun e => ⟨e, m, l, 1⟩) _
      (fun e => timeghostInit_check e m l)

theorem getD_mem_of_lt {l : List Event} {n : Nat} {a : Event} (h : n < l.length) :
    l.getD n a ∈ l := by
  rw [List.getD_eq_getElem?_getD, List.getElem?_eq_getElem h]
  exact List.getElem_mem h

theorem randomChoice_cons (x : Event) (xs : List Event) (rng : List Nat) :
    ∃ m, randomChoice (x :: xs) rng = .ok (m, rng.tail) ∧ m ∈ x :: xs := by
  refine ⟨(x :: xs).getD (rng.headD 0 % (x :: xs).length) x, rfl, ?_⟩
  exact getD_mem_of_lt (Nat.mod_lt _ (by simp))

theorem tgMake_ok (events : List Event) (fo mo lo : Option Event) (tg : Timeghost)
    (h : tgMake events fo mo lo = .ok tg) :
    tg.is_valid = true ∧ ∀ m, mo = some m → tg.middle = m := by
  cases mo with
  | none => cases fo <;> cases lo <;> simp [tgMake] at h
  | some m =>
    cases fo with
    | some f =>
      cases lo with
      | some l => simp [tgMake] at h
      | none =>
        rw [show tgMake events (some f) (some m) none
              = tgScan events (fun e => decide (e.date < m.date))
                  (fun e => timeghostInit f m e true) from rfl,
          tgScan_init_eq_find events _ (fun e => ⟨f, m, e, 1⟩) _
            (fun e => timeghostInit_check f m e)] at h
        cases hf : events.find?
            (fun e => !decide (e.date < m.date) && (⟨f, m, e, 1⟩ : Timeghost).is_valid) with
        | none => rw [hf] at h; cases h
        | some e =>
          rw [hf] at h
          cases h
          have hp := List.find?_some hf
          refine ⟨((Bool.and_eq_true _ _).mp hp).2, ?_⟩
          intro m0 hm0
          cases hm0
          rfl
    | none =>
      cases lo with
      | none => simp [tgMake] at h
      | some l =>
        rw [show tgMake events none (some m) (some l)
              = tgScan events (fun e => decide (m.date < e.date))
                  (fun e => timeghostInit e m l true) from rfl,
          tgScan_init_eq_find events _ (fun e => ⟨e, m, l, 1⟩) _
            (fun e => timeghostInit_check e m l)] at h
        cases hf : events.find?
            (fun e => !decide (m.date < e.date) && (⟨e, m, l, 1⟩ : Timeghost).is_valid) with
        | none => rw [hf] at h; cases h
        | some e =>
          rw [hf] at h
          cases h
          have hp := List.find?_some hf
          refine ⟨((Bool.and_eq_true _ _).mp hp).2, ?_⟩
          intro m0 hm0
          cases hm0
          rfl

theorem is_valid_set_tries (tg : Timeghost) (n : Nat) :
    ({ tg with tries := n } : Timeghost).is_valid = tg.is_valid := rfl

theorem makeLoop_ok (fuel : Nat) : ∀ (i : Nat) (events : List Event) (mo : Option Event)
    (isNow : Bool) (nowDate : Int) (rng : List Nat) (tg : Timeghost),
    (makeLoop fuel i events mo isNow nowDate rng).1 = .ok tg →
    tg.is_valid = true ∧ (i + 1 ≤ tg.tries ∧ tg.tries ≤ i + fuel)
      ∧ (∀ m, mo = some m → tg.middle = m) := by
  induction fuel with
  | zero =>
    intro i events mo isNow nowDate rng tg h
    simp [makeLoop] at h
  | succ n ih =>
    intro i events mo isNow nowDate rng tg h
    cases mo with
    | some m =>
      simp only [makeLoop] at h
      split at h
      · simp at h
      · split at h
        · next tg0 heq =>
          have h' : Except.ok { tg0 with tries := i + 1 } = Except.ok tg := h
          cases h'
          have hv := tgMake_ok _ _ _ _ _ heq
          refine ⟨hv.1, ⟨?_, ?_⟩, ?_⟩
          · show i + 1 ≤ i + 1
            omega
          · show i + 1 ≤ i + (n + 1)
            omega
          · intro m0 hm0
            cases hm0
            exact hv.2 m rfl
        · split at h
          · have hr := ih (i + 1) _ _ isNow nowDate _ tg h
            refine ⟨hr.1, ⟨by omega, by omega⟩, ?_⟩
            intro m0 hm0
            cases hm0
            exact hr.2.2 m rfl
          · simp at h
    | none =>
      simp only [makeLoop] at h
      split at h
      · simp at h
      · split at h
        · simp at h
        · split at h
          · next tg0 heq =>
            have h' : Except.ok { tg0 with tries := i + 1 } = Except.ok tg := h
            cases h'
            have hv := tgMake_ok _ _ _ _ _ heq
            refine ⟨hv.1, ⟨?_, ?_⟩, ?_⟩
            · show i + 1 ≤ i + 1
              omega
            · show i + 1 ≤ i + (n + 1)
              omega
            · intro m0 hm0
              cases hm0
          · split at h
            · have hr := ih (i + 1) _ _ isNow nowDate _ tg h
              refine ⟨hr.1, ⟨by omega, by omega⟩, ?_⟩
              intro m0 hm0
              cases hm0
            · simp at h

theorem makeLoop_events_of_not_mem (fuel : Nat) : ∀ (i : Nat) (events : List Event) (m : Event)
    (isNow : Bool) (nowDate : Int) (rng : List Nat), m ∉ events →
    (makeLoop fuel i events (some m) isNow nowDate rng).2.1 = events := by
  induction fuel with
  | zero => intros; rfl
  | succ n ih =>
    intro i events m isNow nowDate rng hm
    simp only [makeLoop]
    rw [if_neg hm]
    split
    · rfl
    · split
      · rfl
      · split
        · exact ih (i + 1) events m isNow nowDate _ hm
        · rfl

theorem makeLoop_some_events (n i : Nat) (events : List Event) (m : Event)
    (isNow : Bool) (nowDate : Int) (rng : List Nat) (hnd : events.Nodup) :
    (makeLoop (n + 1) i events (some m) isNow nowDate rng).2.1 = events.erase m := by
  have hev1 : (if m ∈ events then events.erase m else events) = events.erase m := by
    by_cases h : m ∈ events
    · rw [if_pos h]
    · rw [if_neg h, List.erase_of_not_mem h]
  have hnm : m ∉ events.erase m := by
    intro hc
    exact ((List.Nodup.mem_erase_iff hnd).mp hc).1 rfl
  simp only [makeLoop]
  rw [hev1]
  split
  · rfl
  · split
    · rfl
    · split
      · exact makeLoop_events_of_not_mem n (i + 1) (events.erase m) m isNow nowDate _ hnm
      · rfl

theorem makeLoop_none_step (n i : Nat) (events : List Event) (isNow : Bool)
    (nowDate : Int) (rng : List Nat) (hnd : events.Nodup) :
    ∃ m, (makeLoop (n + 1) i events none isNow nowDate rng).2.1 = events.erase m
      ∧ ∀ tg, (makeLoop (n + 1) i events none isNow nowDate rng).1 = .ok tg →
          tg.middle = m := by
  cases events with
  | nil =>
    refine ⟨⟨"", 0⟩, by simp [makeLoop, randomChoice], ?_⟩
    intro tg h
    simp [makeLoop, randomChoice] at h
  | cons x xs =>
    obtain ⟨m, hrc, hmem⟩ := randomChoice_cons x xs rng
    have hev1 : (if m ∈ x :: xs then (x :: xs).erase m else (x :: xs)) = (x :: xs).erase m :=
      if_pos hmem
    have hnm : m ∉ (x :: xs).erase m := by
      intro hc
      exact ((List.Nodup.mem_erase_iff hnd).mp hc).1 rfl
    refine ⟨m, ?_, ?_⟩
    · simp only [makeLoop, hrc]
      rw [hev1]
      split
      · rfl
      · split
        · rfl
        · split
          · exact makeLoop_events_of_not_mem n (i + 1) ((x :: xs).erase m) m isNow nowDate _ hnm
          · rfl
    · intro tg h
      simp only [makeLoop, hrc] at h
      split at h
      · simp at h
      · split at h
        · next tg0 heq =>
          have h' : Except.ok { tg0 with tries := i + 1 } = Except.ok tg := h
          cases h'
          exact (tgMake_ok _ _ _ _ _ heq).2 m rfl
        · split at h
          · exact (makeLoop_ok n (i + 1) _ _ isNow nowDate _ tg h).2.2 m rfl
          · simp at h

theorem ordered_insert_perm (e : Event) (l : List Event) :
    List.Perm (ordered_insert e l) (e :: l) := by
  induction l with
  | nil => exact List.Perm.refl _
  | cons x xs ih =>
    rw [ordered_insert]
    by_cases h : e.date ≤ x.date
    · rw [if_pos h]
    · rw [if_neg h]
      exact (List.Perm.cons x ih).trans (List.Perm.swap e x xs)

theorem sortEvents_perm (l : List Event) : List.Perm (sortEvents l) l := by
  induction l with
  | nil => exact List.Perm.refl _
  | cons x xs ih =>
    rw [sortEvents]
    exact (ordered_insert_perm x (sortEvents xs)).trans (List.Perm.cons x ih)

theorem pickAt_perm : ∀ (xs : List Event) (n : Nat) (y : Event) (ys : List Event),
    pickAt xs n = some (y, ys) → List.Perm xs (y :: ys) := by
  intro xs
  induction xs with
  | nil => intro n y ys h; cases h
  | cons x l ih =>
    intro n y ys h
    cases n with
    | zero =>
      cases h
      exact List.Perm.refl _
    | succ k =>
      rw [pickAt] at h
      cases hp : pickAt l k with
      | none => rw [hp] at h; cases h
      | some p =>
        rw [hp] at h
        cases p with
        | mk y' ys' =>
          cases h
          exact (List.Perm.cons x (ih k y ys' hp)).trans (List.Perm.swap y x ys')

theorem shuffleFuel_perm : ∀ (fuel : Nat) (xs : List Event) (rng : List Nat),
    List.Perm (shuffleFuel fuel xs rng).1 xs := by
  intro fuel
  induction fuel with
  | zero => intro xs rng; exact List.Perm.refl _
  | succ n ih =>
    intro xs rng
    cases xs with
    | nil => exact List.Perm.refl _
    | cons x l =>
      rw [shuffleFuel]
      cases hp : pickAt (x :: l) (rng.headD 0 % (x :: l).length) with
      | none => exact List.Perm.refl _
      | some p =>
        cases p with
        | mk y ys =>
          exact (List.Perm.cons y (ih ys rng.tail)).trans (pickAt_perm _ _ _ _ hp).symm

theorem shuffle_perm (xs : List Event) (rng : List Nat) :
    List.Perm (shuffle xs rng).1 xs :=
  shuffleFuel_perm xs.length xs rng

theorem makeLoop_now_rng_indep (fuel : Nat) : ∀ (i : Nat) (events : List Event) (m : Event)
    (nowDate : Int) (rng rng' : List Nat),
    (makeLoop fuel i events (some m) true nowDate rng).1
        = (makeLoop fuel i events (some m) true nowDate rng').1
    ∧ (makeLoop fuel i events (some m) true nowDate rng).2.1
        = (makeLoop fuel i events (some m) true nowDate rng').2.1 := by
  induction fuel with
  | zero => intros; exact ⟨rfl, rfl⟩
  | succ n ih =>
    intro i events m nowDate rng rng'
    cases htg : tgMake (if m ∈ events then events.erase m else events) none (some m)
        (some (Event.now nowDate)) with
    | ok tg => constructor <;> simp [makeLoop, htg]
    | error e =>
      by_cases he : e = PyError.creation
      · subst he
        have hr := ih (i + 1) (if m ∈ events then events.erase m else events) m nowDate rng rng'
        constructor <;> simp [makeLoop, htg, hr.1, hr.2]
      · constructor <;> simp [makeLoop, htg, he]

/-- C2 counterexample: a pool with a single event later than the pinned
middle makes every attempt fail, and after the 100 attempts `make` does not
return a last invalid Timeghost: it raises `UnboundLocalError` (the
`timeghost` variable was never assigned). -/
theorem C2_counterexample :
    (make [evA] (some evM) true false [] 5000).1 = .error .unboundLocal := by decide

/-- C2 (amended): the inner search only ever returns Timeghosts that passed
validation, so every Timeghost `make` returns satisfies `is_valid`; on
exhaustion `make` raises an unbound-local error instead of returning an
invalid value. -/
theorem C2_make_ok_valid (events : List Event) (mo : Option Event) (isNow isRandom : Bool)
    (rng : List Nat) (nowDate : Int) (tg : Timeghost)
    (h : (make events mo isNow isRandom rng nowDate).1 = .ok tg) :
    tg.is_valid = true := by
  simp only [make] at h
  exact (makeLoop_ok NUM_TRIES 0 _ mo isNow nowDate _ tg h).1

/-- C2 witness: a concrete successful run returns a valid Timeghost. -/
theorem C2_make_ok_valid_witness : (⟨evF, evM, evL, 1⟩ : Timeghost).is_valid = true :=
  C2_make_ok_valid [evF, evL] (some evM) false false [0] 5000 ⟨evF, evM, evL, 1⟩ (by decide)

/-- C7: every Timeghost returned by `make` has `tries` between 1 and 100. -/
theorem C7_tries_bounds (events : List Event) (mo : Option Event) (isNow isRandom : Bool)
    (rng : List Nat) (nowDate : Int) (tg : Timeghost)
    (h : (make events mo isNow isRandom rng nowDate).1 = .ok tg) :
    1 ≤ tg.tries ∧ tg.tries ≤ 100 := by
  simp only [make] at h
  have hb := makeLoop_ok NUM_TRIES 0 _ mo isNow nowDate _ tg h
  exact ⟨hb.2.1.1, hb.2.1.2⟩

/-- C7 witness: a concrete run returns a Timeghost with `tries` in bounds. -/
theorem C7_tries_bounds_witness :
    1 ≤ (⟨evE1, evM, evL, 1⟩ : Timeghost).tries
      ∧ (⟨evE1, evM, evL, 1⟩ : Timeghost).tries ≤ 100 :=
  C7_tries_bounds [evE1, evM, evL] (some evM) false false [0] 5000 ⟨evE1, evM, evL, 1⟩
    (by decide)

/-- C4: with a two-event pool whose earlier event is pinned as middle and
`is_now = false`, the search for an earlier first event does not surface a
domain failure: `random.choice` on the empty candidate list raises a bare
`IndexError`, which no handler catches. -/
theorem C4_no_candidate_index_error :
    (make [evM, evA] (some evM) false false [] 5000).1 = .error .indexError := by decide

/-- C5 counterexample: with `is_random = false`, `is_now = false`, the same
pool and the same pinned middle, two runs that differ only in the state of
the global random source return different triples, because `_event_before`
draws the first event with `random.choice` even in deterministic mode. -/
theorem C5_counterexample :
    (make [evE1, evE2, evM, evL] (some evM) false false [0] 5000).1
        = .ok ⟨evE1, evM, evL, 1⟩
    ∧ (make [evE1, evE2, evM, evL] (some evM) false false [1] 5000).1
        = .ok ⟨evE2, evM, evL, 1⟩
    ∧ (⟨evE1, evM, evL, 1⟩ : Timeghost) ≠ ⟨evE2, evM, evL, 1⟩ :=
  ⟨by decide, by decide, by decide⟩

/-- C5 (amended): with `is_random = false`, a pinned middle, `is_now = true`
and a fixed current instant, the run is deterministic: the result and the
final pool do not depend on the random source. -/
theorem C5_deterministic_is_now (events : List Event) (m : Event) (nowDate : Int)
    (rng rng' : List Nat) :
    (make events (some m) true false rng nowDate).1
        = (make events (some m) true false rng' nowDate).1
    ∧ (make events (some m) true false rng nowDate).2.1
        = (make events (some m) true false rng' nowDate).2.1 :=
  makeLoop_now_rng_indep NUM_TRIES 0 (sortEvents events) m nowDate rng rng'

/-- C9: one run of `make` removes at most one element from the pool: there is
a single event `m` (the pinned middle when one is supplied) such that the
final pool is a permutation of the input pool with `m` erased, and any
returned Timeghost has `m` as its middle. -/
theorem C9_pool_frame (events : List Event) (mo : Option Event) (isNow isRandom : Bool)
    (rng : List Nat) (nowDate : Int) (hnd : events.Nodup) :
    ∃ m, List.Perm (make events mo isNow isRandom rng nowDate).2.1 (events.erase m)
      ∧ (∀ m0, mo = some m0 → m = m0)
      ∧ (∀ tg, (make events mo isNow isRandom rng nowDate).1 = .ok tg → tg.middle = m) := by
  have hperm :
      List.Perm (if isRandom then shuffle events rng else (sortEvents events, rng)).1 events := by
    by_cases hr : isRandom
    · rw [if_pos hr]
      exact shuffle_perm events rng
    · rw [if_neg hr]
      exact sortEvents_perm events
  have hnd' : (if isRandom then shuffle events rng else (sortEvents events, rng)).1.Nodup :=
    hperm.symm.nodup hnd
  cases mo with
  | some m =>
    have hev : (make events (some m) isNow isRandom rng nowDate).2.1
        = ((if isRandom then shuffle events rng else (sortEvents events, rng)).1).erase m :=
      makeLoop_some_events 99 0 _ m isNow nowDate _ hnd'
    refine ⟨m, ?_, ?_, ?_⟩
    · rw [hev]
      exact hperm.erase m
    · intro m0 h0
      exact Option.some.inj h0
    · intro tg htg
      have htg' : (makeLoop NUM_TRIES 0
          (if isRandom then shuffle events rng else (sortEvents events, rng)).1 (some m)
          isNow nowDate
          (if isRandom then shuffle events rng else (sortEvents events, rng)).2).1
            = .ok tg := htg
      exact (makeLoop_ok NUM_TRIES 0 _ _ isNow nowDate _ tg htg').2.2 m rfl
  | none =>
    obtain ⟨m, hev, hmid⟩ := makeLoop_none_step 99 0
        (if isRandom then shuffle events rng else (sortEvents events, rng)).1 isNow nowDate
        (if isRandom then shuffle events rng else (sortEvents events, rng)).2 hnd'
    refine ⟨m, ?_, ?_, ?_⟩
    · have hev' : (make events none isNow isRandom rng nowDate).2.1
          = ((if isRandom then shuffle events rng else (sortEvents events, rng)).1).erase m :=
        hev
      rw [hev']
      exact hperm.erase m
    · intro m0 h0
      cases h0
    · intro tg htg
      exact hmid tg htg

/-- C9 witness: a concrete run with a pinned middle. -/
theorem C9_pool_frame_witness :
    ∃ m, List.Perm (make [evF, evL] (some evM) false false [0] 5000).2.1 ([evF, evL].erase m)
      ∧ (∀ m0, (some evM : Option Event) = some m0 → m = m0)
      ∧ (∀ tg, (make [evF, evL] (some evM) false false [0] 5000).1 = .ok tg → tg.middle = m) :=
  C9_pool_frame [evF, evL] (some evM) false false [0] 5000 (by decide)

/-- C10: `factoid` and `verbose_factoid` substitute "today" (and, in
`verbose_factoid`, the supplied current date) for the last event exactly when
its description equals the string "now" — for any event with that
description, regardless of how it was produced. -/
theorem C10_now_substitution (f m l : Event) (t : Nat) (nowDateStr : String) :
    (l.description = NOW_MARKER →
      Timeghost.factoid ⟨f, m, l, t⟩
          = "The " ++ m.description ++ " is closer to the " ++ f.description ++ " than today."
      ∧ Timeghost.verbose_factoid ⟨f, m, l, t⟩ nowDateStr
          = "The " ++ m.description ++ " (" ++ m.datestr ++ ") is closer ("
              ++ fmtFixed (Timeghost.first_gap_years ⟨f, m, l, t⟩)
                  (findPrecisionAux (Timeghost.first_gap_years ⟨f, m, l, t⟩)
                    (Timeghost.last_gap_years ⟨f, m, l, t⟩) 50 0)
              ++ " years) to the " ++ f.description ++ " (" ++ f.datestr ++ ") ("
              ++ fmtFixed (Timeghost.last_gap_years ⟨f, m, l, t⟩)
                  (findPrecisionAux (Timeghost.first_gap_years ⟨f, m, l, t⟩)
                    (Timeghost.last_gap_years ⟨f, m, l, t⟩) 50 0)
              ++ " years) than today (" ++ nowDateStr ++ ") ")
    ∧ (l.description ≠ NOW_MARKER →
      Timeghost.factoid ⟨f, m, l, t⟩
          = "The " ++ m.description ++ " is closer to the " ++ f.description ++ " than the "
              ++ l.description ++ "."
      ∧ Timeghost.verbose_factoid ⟨f, m, l, t⟩ nowDateStr
          = "The " ++ m.description ++ " (" ++ m.datestr ++ ") is closer ("
              ++ fmtFixed (Timeghost.first_gap_years ⟨f, m, l, t⟩)
                  (findPrecisionAux (Timeghost.first_gap_years ⟨f, m, l, t⟩)
                    (Timeghost.last_gap_years ⟨f, m, l, t⟩) 50 0)
              ++ " years) to the " ++ f.description ++ " (" ++ f.datestr ++ ") ("
              ++ fmtFixed (Timeghost.last_gap_years ⟨f, m, l, t⟩)
                  (findPrecisionAux (Timeghost.first_gap_years ⟨f, m, l, t⟩)
                    (Timeghost.last_gap_years ⟨f, m, l, t⟩) 50 0)
              ++ " years) than the " ++ l.description ++ " (" ++ l.datestr ++ ") ") := by
  constructor
  · intro h
    constructor
    · simp [Timeghost.factoid, h, String.append_assoc]
    · simp [Timeghost.verbose_factoid, h, String.append_assoc]
  · intro h
    constructor
    · simp [Timeghost.factoid, h, String.append_assoc]
      rw [show (" than the " : String) = " than " ++ "the " from rfl, String.append_assoc]
    · simp [Timeghost.verbose_factoid, h, String.append_assoc]
      rw [show (" years) than the " : String) = " years) than " ++ "the " from rfl,
        String.append_assoc]

/-- C10 witness: the substitution at concrete events, one with the "now"
description and one without. -/
theorem C10_now_substitution_witness :
    Timeghost.factoid ⟨evF, evM, evNow, 1⟩ = "The m is closer to the f than today."
    ∧ Timeghost.factoid ⟨evF, evM, evL, 1⟩ = "The m is closer to the f than the l." :=
  ⟨((C10_now_substitution evF evM evNow 1 "1 January, 2026").1 rfl).1,
   ((C10_now_substitution evF evM evL 1 "1 January, 2026").2 (by decide)).1⟩
